import Mathlib

/-!
# Coffeeverse — verification of the record transformer

Shallow embedding of `src/azure_function/function_app.py`: the record
validation (`validate_cocktail_data`), the enrichment transform
(`enrich_cocktail_data`), and the two batch shims (`blob_trigger`,
`manual_trigger`).

Records are Python dicts mapping string keys to JSON values; we model them
as association lists with unique keys (`Rec`), with first-match lookup,
in-place update (`setKey`) and key removal (`popKey`) mirroring dict
semantics. The values this pipeline handles are JSON strings and nulls,
plus the ingredient list the transform itself builds, so `Val` has exactly
those three constructors. Python truthiness on these values is `truthy`.

The Python `enrich_cocktail_data` mutates its argument dict in place
(`data.pop`, item assignment) and returns that same dict; the embedding
passes the state explicitly, so the record returned here is the caller's
record as it stands after the call. A lookup `data['idDrink']` raises
`KeyError` when the key is absent; the embedding returns `Option`, with
`none` standing for the uncaught exception.
-/

set_option autoImplicit false

namespace Coffeeverse

/-- A JSON value as handled by this pipeline: `null`, a string, or the
flattened ingredients list (a list of `{ingredient, measure}` pairs,
kept as ordered pairs). -/
inductive Val where
  | vnull : Val
  | vstr (s : String) : Val
  | vpairs (xs : List (Val × Val)) : Val

mutual

/-- Decidable equality on `Val`, spelled out because the derive handler
does not support the nested occurrence of `Val` under `List`. -/
def Val.decEq : (a b : Val) → Decidable (a = b)
  | .vnull, .vnull => isTrue rfl
  | .vnull, .vstr _ => isFalse (fun h => Val.noConfusion h)
  | .vnull, .vpairs _ => isFalse (fun h => Val.noConfusion h)
  | .vstr _, .vnull => isFalse (fun h => Val.noConfusion h)
  | .vstr a, .vstr b =>
      if h : a = b then isTrue (by rw [h])
      else isFalse (fun hh => h (Val.vstr.inj hh))
  | .vstr _, .vpairs _ => isFalse (fun h => Val.noConfusion h)
  | .vpairs _, .vnull => isFalse (fun h => Val.noConfusion h)
  | .vpairs _, .vstr _ => isFalse (fun h => Val.noConfusion h)
  | .vpairs xs, .vpairs ys =>
      match Val.decEqPairs xs ys with
      | isTrue h => isTrue (by rw [h])
      | isFalse h => isFalse (fun hh => h (Val.vpairs.inj hh))

/-- Decidable equality on ingredient-pair lists. -/
def Val.decEqPairs : (xs ys : List (Val × Val)) → Decidable (xs = ys)
  | [], [] => isTrue rfl
  | [], _ :: _ => isFalse (fun h => List.noConfusion h)
  | _ :: _, [] => isFalse (fun h => List.noConfusion h)
  | (a₁, b₁) :: t₁, (a₂, b₂) :: t₂ =>
      match Val.decEq a₁ a₂, Val.decEq b₁ b₂, Val.decEqPairs t₁ t₂ with
      | isTrue h1, isTrue h2, isTrue h3 => isTrue (by rw [h1, h2, h3])
      | isFalse h1, _, _ => isFalse (fun hh => by cases hh; exact h1 rfl)
      | _, isFalse h2, _ => isFalse (fun hh => by cases hh; exact h2 rfl)
      | _, _, isFalse h3 => isFalse (fun hh => by cases hh; exact h3 rfl)

end

instance : DecidableEq Val := Val.decEq

/-- Python truthiness of a `Val`: `None` and `""` and `[]` are falsy. -/
def truthy : Val → Bool
  | .vnull => false
  | .vstr s => s != ""
  | .vpairs xs => !xs.isEmpty

/-- Truthiness of a `dict.get` result: an absent key is falsy. -/
def truthyO : Option Val → Bool
  | none => false
  | some v => truthy v

/-- A record: a Python dict modelled as an association list. -/
abbrev Rec := List (String × Val)

/-- `d.get(k)` / `d[k]`: first binding of the key, if any. -/
def get : Rec → String → Option Val
  | [], _ => none
  | (k', v) :: rest, k => if k' = k then some v else get rest k

/-- `d[k] = v`: replace the binding in place if the key is present,
otherwise append it at the end (Python dict insertion order). -/
def setKey : Rec → String → Val → Rec
  | [], k, v => [(k, v)]
  | (k', v') :: rest, k, v =>
      if k' = k then (k, v) :: rest else (k', v') :: setKey rest k v

/-- `d.pop(k, None)`: remove the key's binding. On the association lists
that represent dicts (unique keys) this is exactly deletion of that key. -/
def popKey (d : Rec) (k : String) : Rec :=
  d.filter (fun p => p.1 ≠ k)

/-- The `required_fields` list of `validate_cocktail_data`. -/
def required_fields : List String :=
  ["idDrink", "strDrink", "strCategory", "strAlcoholic", "strInstructions"]

/-- `validate_cocktail_data(data)`: `all(data.get(field) for field in
required_fields)` — every required field present and truthy. The warning
log on failure carries `data.get('idDrink', 'N/A')`; see `logIdOrNA`. -/
def validate_cocktail_data (data : Rec) : Bool :=
  required_fields.all (fun field => truthyO (get data field))

/-- `data.get('idDrink', 'N/A')`, the identifier quoted in diagnostics. -/
def logIdOrNA (data : Rec) : Val :=
  (get data "idDrink").getD (.vstr "N/A")

/-- `f"strIngredient{i}"`. -/
def ingredientKey (i : Nat) : String := "strIngredient" ++ toString i

/-- `f"strMeasure{i}"`. -/
def measureKey (i : Nat) : String := "strMeasure" ++ toString i

/-- The two keys of slot `i`. -/
def slotKeys (i : Nat) : List String := [ingredientKey i, measureKey i]

/-- `range(1, 16)`: the slot indices 1..15. -/
def slotRange : List Nat := List.range' 1 15

/-- The `measure if measure else ""` default of the enrichment loop. -/
def measureOrEmpty (measure : Option Val) : Val :=
  if truthyO measure then measure.getD .vnull else .vstr ""

/-- The `for i in range(1, 16)` loop body of `enrich_cocktail_data`,
iterated over the remaining slot indices: reads the slot's ingredient and
measure, appends `(ingredient, measure-or-"")` to the accumulator when the
ingredient is truthy, and unconditionally pops both slot keys from the
working record. Returns the final working record and ingredients list. -/
def slotLoop : List Nat → Rec → List (Val × Val) → Rec × List (Val × Val)
  | [], data, acc => (data, acc)
  | i :: rest, data, acc =>
      let ingredient := get data (ingredientKey i)
      let measure := get data (measureKey i)
      let acc' :=
        if truthyO ingredient then
          acc ++ [(ingredient.getD .vnull, measureOrEmpty measure)]
        else acc
      slotLoop rest (popKey (popKey data (ingredientKey i)) (measureKey i)) acc'

/-- `enrich_cocktail_data(data)`. `now` stands for the string
`datetime.utcnow().isoformat()`; the function stamps `now + 'Z'`, the three
provenance constants, flattens the 15 ingredient/measure slots into the
`ingredients` list while popping the slot keys, and copies `data['idDrink']`
into `id`. That last subscript raises `KeyError` when `idDrink` is absent,
modelled by `none`. The Python function updates `data` in place and returns
it, so the returned record is also the caller's record after the call. -/
def enrich_cocktail_data (now : String) (data : Rec) : Option Rec :=
  let d1 := setKey data "processing_timestamp" (.vstr (now ++ "Z"))
  let d2 := setKey d1 "source_api" (.vstr "TheCocktailDB")
  let d3 := setKey d2 "cloud_provider" (.vstr "Azure")
  let d4 := setKey d3 "processing_service" (.vstr "Azure Functions")
  let step := slotLoop slotRange d4 []
  let d5 := setKey step.1 "ingredients" (.vpairs step.2)
  match get d5 "idDrink" with
  | none => none
  | some idv => some (setKey d5 "id" idv)

/-- Claim-side description of one slot's contribution, written from the
spec's words: a slot yields an entry exactly when its `ingredient_i` is
present and non-empty, the entry pairs that ingredient with `measure_i`
when that is present and non-empty and with `""` otherwise. To be compared
with what the source loop `slotLoop` produces. -/
def specEntry (d : Rec) (i : Nat) : Option (Val × Val) :=
  match get d (ingredientKey i) with
  | none => none
  | some v =>
      if truthy v then some (v, measureOrEmpty (get d (measureKey i)))
      else none

/-- Claim-side ingredients sequence: slots 1..15 in ascending order, gaps
skipped, one entry per slot with a present, non-empty ingredient. -/
def specIngredients (d : Rec) : List (Val × Val) :=
  slotRange.filterMap (specEntry d)

/-- The number of slots in 1..15 whose `ingredient_i` is present and
non-empty. -/
def countIngredientSlots (d : Rec) : Nat :=
  (slotRange.filter (fun i => truthyO (get d (ingredientKey i)))).length

/-!
## The batch shims

`blob_trigger` reads the blob as NDJSON: `[json.loads(line) for line in
blob_content.splitlines() if line.strip()]`. We model each non-blank line
by its parse result, `Option Rec` (`none` = `json.loads` raised). The
Cosmos collaborator `container.upsert_item` is a parameter
`store : Rec → Bool`; `false` stands for the `CosmosHttpResponseError` it
may raise — the only store failure the code distinguishes.

Observable effects are collected in `LoopOutcome`: the records appended to
`processed_cocktails`, the ids logged as stored, the ids whose Cosmos
write failed, and the identifiers quoted when an invalid record is
skipped. `aborted = true` marks an exception escaping the per-record
loop (which the blob handler's outer `except` re-raises).
-/

/-- Effects accumulated by a per-record processing loop. -/
structure LoopOutcome where
  processed : List Rec
  storedIds : List (Option Val)
  storeFailedIds : List (Option Val)
  skippedIds : List Val
  aborted : Bool
  deriving DecidableEq

/-- The empty outcome at loop entry. -/
def LoopOutcome.start : LoopOutcome := ⟨[], [], [], [], false⟩

/-- The `[json.loads(line) for line in ...]` comprehension: the first
failing line raises, so either every line parses or no record list is
produced at all. -/
def decodeLines : List (Option Rec) → Option (List Rec)
  | [] => some []
  | none :: _ => none
  | some r :: rest => (decodeLines rest).map (r :: ·)

/-- The record loop of `blob_trigger`: validate; on success enrich, append
to `processed_cocktails`, then try the Cosmos upsert, logging the id on
success and the failure on `CosmosHttpResponseError`; on validation
failure log a skip with the record's identifier. An exception from the
enrich step (absent `idDrink` cannot happen for a validated record, but
the model is total) aborts the loop. -/
def blobLoop (store : Rec → Bool) (now : String) :
    List Rec → LoopOutcome → LoopOutcome
  | [], st => st
  | r :: rest, st =>
      if validate_cocktail_data r then
        match enrich_cocktail_data now r with
        | none => { st with aborted := true }
        | some e =>
            let st1 := { st with processed := st.processed ++ [e] }
            let st2 :=
              if store e then
                { st1 with storedIds := st1.storedIds ++ [get e "id"] }
              else
                { st1 with storeFailedIds := st1.storeFailedIds ++ [get e "id"] }
            blobLoop store now rest st2
      else
        blobLoop store now rest
          { st with skippedIds := st.skippedIds ++ [logIdOrNA r] }

/-- Result of one `blob_trigger` invocation: the loop's effects, whether
the handler re-raised, and the batch written to the processed container
(absent when an exception aborted the handler first). -/
structure BlobOutcome where
  effects : LoopOutcome
  raised : Bool
  mirrored : Option (List Rec)
  deriving DecidableEq

/-- `blob_trigger(myblob)`: decode the NDJSON lines (a decode failure hits
the outer `except`, which logs and re-raises before any record is
processed), run the record loop, then upload the processed batch to the
processed container. -/
def blob_trigger (store : Rec → Bool) (now : String)
    (lines : List (Option Rec)) : BlobOutcome :=
  match decodeLines lines with
  | none => ⟨LoopOutcome.start, true, none⟩
  | some records =>
      let st := blobLoop store now records LoopOutcome.start
      if st.aborted then ⟨st, true, none⟩
      else ⟨st, false, some st.processed⟩

/-- Result of one `manual_trigger` invocation: the ids the store accepted
before control left the loop, the HTTP status code, and the
`processed`/`total` counts of the success body (absent on the 500 error
response). -/
structure ManualOutcome where
  storedIds : List (Option Val)
  status_code : Nat
  processedCount : Option Nat
  totalCount : Option Nat
  deriving DecidableEq

/-- The record loop of `manual_trigger`: validate; on success enrich and
upsert with **no** per-record exception handler, so a store rejection (or
an enrich `KeyError`) escapes the loop and lands in the outer `except`.
Returns the stored ids, the `processed_count`, and whether the loop ran to
completion. -/
def manualLoop (store : Rec → Bool) (now : String) :
    List Rec → List (Option Val) → Nat → List (Option Val) × Nat × Bool
  | [], ids, count => (ids, count, true)
  | r :: rest, ids, count =>
      if validate_cocktail_data r then
        match enrich_cocktail_data now r with
        | none => (ids, count, false)
        | some e =>
            if store e then
              manualLoop store now rest (ids ++ [get e "id"]) (count + 1)
            else (ids, count, false)
      else
        manualLoop store now rest ids count

/-- `manual_trigger(req)` on a decoded JSON array `body`: run the loop;
on completion answer 200 with the processed/total counts, and when any
exception escaped the loop answer the 500 error response. Upserts done
before the exception remain done. -/
def manual_trigger (store : Rec → Bool) (now : String)
    (body : List Rec) : ManualOutcome :=
  match manualLoop store now body [] 0 with
  | (ids, count, true) => ⟨ids, 200, some count, some body.length⟩
  | (ids, _, false) => ⟨ids, 500, none, none⟩

/-!
## Derived definitions used by the specification theorems
-/

/-- The enrichment fields written by `enrich_cocktail_data`, plus the
identifier field it reads. -/
def enrichKeys : List String :=
  ["processing_timestamp", "source_api", "cloud_provider",
   "processing_service", "ingredients", "id", "idDrink"]

/-- The six fields `enrich_cocktail_data` assigns. -/
def addedKeys : List String :=
  ["processing_timestamp", "source_api", "cloud_provider",
   "processing_service", "ingredients", "id"]

/-- The working record after the four metadata assignments at the top of
`enrich_cocktail_data` (definitionally the `d4` of its `let` chain). -/
def stampRec (now : String) (d : Rec) : Rec :=
  setKey (setKey (setKey (setKey d "processing_timestamp" (.vstr (now ++ "Z")))
    "source_api" (.vstr "TheCocktailDB")) "cloud_provider" (.vstr "Azure"))
    "processing_service" (.vstr "Azure Functions")

/-- The working record right before the final `id` assignment
(definitionally the `d5` of the `let` chain). -/
def midRec (now : String) (d : Rec) : Rec :=
  setKey (slotLoop slotRange (stampRec now d) []).1 "ingredients"
    (.vpairs (slotLoop slotRange (stampRec now d) []).2)

/-- One slot-loop iteration's effect on the working record: pop the slot's
two keys. -/
def popSlot (d : Rec) (i : Nat) : Rec :=
  popKey (popKey d (ingredientKey i)) (measureKey i)

/-- The enriched records a batch yields: the per-record denotation shared
by both shims (validate, then enrich the survivors). -/
def processedBatch (now : String) (records : List Rec) : List Rec :=
  (records.filter validate_cocktail_data).filterMap (enrich_cocktail_data now)

/-- The ids the blob loop logs as stored: the enriched records the store
accepted, in order. -/
def storedIdsOf (store : Rec → Bool) (now : String) (records : List Rec) :
    List (Option Val) :=
  ((processedBatch now records).filter store).map (fun e => get e "id")

/-- The ids the blob loop logs as Cosmos write failures, in order. -/
def failedIdsOf (store : Rec → Bool) (now : String) (records : List Rec) :
    List (Option Val) :=
  ((processedBatch now records).filter (fun e => !store e)).map (fun e => get e "id")

/-- The identifiers quoted when invalid records are skipped, in order. -/
def skippedIdsOf (records : List Rec) : List Val :=
  (records.filter (fun r => !validate_cocktail_data r)).map logIdOrNA

/-!
## Concrete records and collaborators for the worked scenarios
-/

/-- The Margarita record of the spec's worked scenario: all five required
fields, slots 1 and 2 filled, slot 3 present but empty. -/
def margarita : Rec :=
  [("idDrink", .vstr "11007"), ("strDrink", .vstr "Margarita"),
   ("strCategory", .vstr "Cocktail"), ("strAlcoholic", .vstr "Alcoholic"),
   ("strInstructions", .vstr "Shake."),
   ("strIngredient1", .vstr "Tequila"), ("strMeasure1", .vstr "1 1/2 oz"),
   ("strIngredient2", .vstr "Triple sec"), ("strMeasure2", .vstr "1/2 oz"),
   ("strIngredient3", .vstr ""), ("strMeasure3", .vstr "")]

/-- A valid record that already carries a `source_api` field of its own. -/
def legacyRec : Rec :=
  [("idDrink", .vstr "11007"), ("strDrink", .vstr "Margarita"),
   ("strCategory", .vstr "Cocktail"), ("strAlcoholic", .vstr "Alcoholic"),
   ("strInstructions", .vstr "Shake."), ("source_api", .vstr "legacy")]

/-- The Margarita record plus an orphan `strMeasure4` whose
`strIngredient4` is absent. -/
def orphanRec : Rec := margarita ++ [("strMeasure4", .vstr "1 tsp")]

/-- Minimal valid batch records with ids 1, 2 and 3. -/
def recA : Rec :=
  [("idDrink", .vstr "1"), ("strDrink", .vstr "Daiquiri"),
   ("strCategory", .vstr "Cocktail"), ("strAlcoholic", .vstr "Alcoholic"),
   ("strInstructions", .vstr "Mix.")]

/-- Second minimal valid batch record. -/
def recB : Rec :=
  [("idDrink", .vstr "2"), ("strDrink", .vstr "Mojito"),
   ("strCategory", .vstr "Cocktail"), ("strAlcoholic", .vstr "Alcoholic"),
   ("strInstructions", .vstr "Muddle.")]

/-- Third minimal valid batch record. -/
def recC : Rec :=
  [("idDrink", .vstr "3"), ("strDrink", .vstr "Negroni"),
   ("strCategory", .vstr "Cocktail"), ("strAlcoholic", .vstr "Alcoholic"),
   ("strInstructions", .vstr "Stir.")]

/-- An invalid record: `strInstructions` is missing. -/
def recBad : Rec :=
  [("idDrink", .vstr "2"), ("strDrink", .vstr "Mystery"),
   ("strCategory", .vstr "Cocktail"), ("strAlcoholic", .vstr "Alcoholic")]

/-- The enriched batch records at timestamp `"T"`. -/
def enrichedA : Rec := (enrich_cocktail_data "T" recA).getD []

/-- Enriched form of `recB` at timestamp `"T"`. -/
def enrichedB : Rec := (enrich_cocktail_data "T" recB).getD []

/-- Enriched form of `recC` at timestamp `"T"`. -/
def enrichedC : Rec := (enrich_cocktail_data "T" recC).getD []

/-- Enriched form of `margarita` at timestamp `"T"`. -/
def enrichedMargarita : Rec := (enrich_cocktail_data "T" margarita).getD []

/-- A store that accepts every write. -/
def storeAll : Rec → Bool := fun _ => true

/-- A store that raises `CosmosHttpResponseError` exactly on id `"2"`. -/
def storeFailOn2 : Rec → Bool := fun e => !(get e "id" == some (.vstr "2"))

/-- A store that raises `CosmosHttpResponseError` exactly on id `"3"`. -/
def storeFailOn3 : Rec → Bool := fun e => !(get e "id" == some (.vstr "3"))

/-!
## Dictionary lemmas
-/

theorem get_setKey (d : Rec) (k : String) (v : Val) (k2 : String) :
    get (setKey d k v) k2 = if k = k2 then some v else get d k2 := by
  induction d with
  | nil => simp [setKey, get]
  | cons p t ih =>
      obtain ⟨a, b⟩ := p
      by_cases hak : a = k
      · subst hak
        by_cases h2 : a = k2 <;> simp [setKey, get, h2]
      · by_cases h2 : a = k2
        · subst h2
          have hka : ¬k = a := fun hh => hak hh.symm
          simp [setKey, get, hak, hka]
        · simp [setKey, get, hak, h2, ih]

theorem get_popKey (d : Rec) (k : String) (k2 : String) :
    get (popKey d k) k2 = if k2 = k then none else get d k2 := by
  induction d with
  | nil => simp [popKey, get]
  | cons p t ih =>
      obtain ⟨a, b⟩ := p
      simp only [popKey, List.filter_cons] at ih ⊢
      simp only [decide_not] at ih ⊢
      by_cases hak : a = k
      · subst hak
        by_cases h2 : k2 = a
        · subst h2
          simpa using ih
        · have h2' : ¬a = k2 := fun hh => h2 hh.symm
          simp only [if_neg h2] at ih ⊢
          simpa [get, h2'] using ih
      · by_cases h2 : a = k2
        · subst h2
          simp [get, hak]
        · simp [get, hak, h2, ih]

theorem get_eq_none_iff (d : Rec) (k : String) :
    get d k = none ↔ ∀ p ∈ d, p.1 ≠ k := by
  induction d with
  | nil => simp [get]
  | cons p t ih =>
      obtain ⟨a, b⟩ := p
      by_cases hak : a = k
      · subst hak
        simp only [get, if_pos rfl]
        constructor
        · intro hh
          exact absurd hh (by simp)
        · intro hforall
          have hfalse : False := by
            simpa using hforall (a, b) (List.mem_cons_self _ _)
          exact hfalse.elim
      · simp [get, hak, ih]

theorem popKey_of_get_none {d : Rec} {k : String} (h : get d k = none) :
    popKey d k = d := by
  rw [popKey, List.filter_eq_self]
  intro p hp
  simpa using (get_eq_none_iff d k).1 h p hp

theorem popKey_popKey_comm (d : Rec) (a b : String) :
    popKey (popKey d a) b = popKey (popKey d b) a := by
  simp only [popKey, List.filter_filter]
  exact List.filter_congr (fun p _ => by rw [Bool.and_comm])

theorem setKey_popKey_comm {k k' : String} (h : k' ≠ k) (d : Rec) (v : Val) :
    setKey (popKey d k') k v = popKey (setKey d k v) k' := by
  induction d with
  | nil =>
      have h2 : ¬k = k' := fun hh => h hh.symm
      simp [popKey, setKey, List.filter_cons, h2]
  | cons p t ih =>
      obtain ⟨a, b⟩ := p
      simp only [popKey, List.filter_cons] at ih ⊢
      simp only [decide_not] at ih ⊢
      by_cases hak' : a = k'
      · subst hak'
        have hak : ¬a = k := h
        simp [setKey, hak, ih]
      · by_cases hak : a = k
        · subst hak
          simp [setKey, List.filter_cons, hak']
        · simp [setKey, hak, hak', List.filter_cons, ih]

/-!
## Slot-key facts and the slot loop
-/

theorem slotKeys_nodup : (slotRange.flatMap slotKeys).Nodup := by decide

theorem enrichKeys_not_slot :
    ∀ k ∈ enrichKeys, k ∉ slotRange.flatMap slotKeys := by decide

theorem ingredientKey_mem_flatMap {i : Nat} {is : List Nat} (hi : i ∈ is) :
    ingredientKey i ∈ is.flatMap slotKeys :=
  List.mem_flatMap.mpr ⟨i, hi, by simp [slotKeys]⟩

theorem measureKey_mem_flatMap {i : Nat} {is : List Nat} (hi : i ∈ is) :
    measureKey i ∈ is.flatMap slotKeys :=
  List.mem_flatMap.mpr ⟨i, hi, by simp [slotKeys]⟩

theorem enrichKey_ne_slotKey {k k' : String} (hk : k ∈ enrichKeys)
    (hk' : k' ∈ slotRange.flatMap slotKeys) : k' ≠ k := by
  intro hh
  exact enrichKeys_not_slot k hk (hh ▸ hk')

/-- `specEntry` reads only the slot's two keys. -/
theorem specEntry_congr {d d' : Rec} {i : Nat}
    (h1 : get d (ingredientKey i) = get d' (ingredientKey i))
    (h2 : get d (measureKey i) = get d' (measureKey i)) :
    specEntry d i = specEntry d' i := by
  simp only [specEntry, h1, h2]

/-- Lookup in the final working record of the slot loop: a key popped by
one of the visited slots is gone, every other key is untouched. -/
theorem slotLoop_fst_get (is : List Nat) (d : Rec) (acc : List (Val × Val))
    (k : String) :
    get (slotLoop is d acc).1 k =
      if k ∈ is.flatMap slotKeys then none else get d k := by
  induction is generalizing d acc with
  | nil => simp [slotLoop]
  | cons i rest ih =>
      simp only [slotLoop]
      rw [ih]
      simp only [List.flatMap_cons, List.mem_append, slotKeys, List.mem_cons,
        List.not_mem_nil, or_false]
      by_cases h1 : k ∈ rest.flatMap slotKeys
      · simp [h1]
      · by_cases h2 : k = ingredientKey i
        · subst h2
          simp [h1, get_popKey]
        · by_cases h3 : k = measureKey i
          · subst h3
            simp [h1, get_popKey]
          · simp [h1, h2, h3, get_popKey]

/-- The ingredients list built by the slot loop is the accumulator followed
by the spec-side entry of each visited slot, provided the visited slots'
keys do not collide (they do not: `slotKeys_nodup`). -/
theorem slotLoop_snd (is : List Nat) (d : Rec) (acc : List (Val × Val))
    (hnd : (is.flatMap slotKeys).Nodup) :
    (slotLoop is d acc).2 = acc ++ is.filterMap (specEntry d) := by
  induction is generalizing d acc with
  | nil => simp [slotLoop]
  | cons i rest ih =>
      simp only [List.flatMap_cons, List.nodup_append, slotKeys] at hnd
      obtain ⟨-, hndrest, hdisj⟩ := hnd
      have hrest : (rest.flatMap slotKeys).Nodup := hndrest
      have hdisj1 : ingredientKey i ∉ rest.flatMap slotKeys := fun hh =>
        hdisj (by simp) hh
      have hdisj2 : measureKey i ∉ rest.flatMap slotKeys := fun hh =>
        hdisj (by simp) hh
      simp only [slotLoop]
      rw [ih _ _ hrest]
      have hcongr : rest.filterMap
          (specEntry (popKey (popKey d (ingredientKey i)) (measureKey i))) =
          rest.filterMap (specEntry d) := by
        apply List.filterMap_congr
        intro j hj
        have hne1 : ingredientKey j ≠ ingredientKey i := by
          intro hh
          exact hdisj1 (hh ▸ ingredientKey_mem_flatMap hj)
        have hne2 : ingredientKey j ≠ measureKey i := by
          intro hh
          exact hdisj2 (hh ▸ ingredientKey_mem_flatMap hj)
        have hne3 : measureKey j ≠ ingredientKey i := by
          intro hh
          exact hdisj1 (hh ▸ measureKey_mem_flatMap hj)
        have hne4 : measureKey j ≠ measureKey i := by
          intro hh
          exact hdisj2 (hh ▸ measureKey_mem_flatMap hj)
        exact specEntry_congr
          (by simp [get_popKey, hne1, hne2])
          (by simp [get_popKey, hne3, hne4])
      rw [hcongr]
      cases hing : get d (ingredientKey i) with
      | none => simp [specEntry, hing, truthyO, List.filterMap_cons]
      | some v =>
          by_cases htr : truthy v
          · simp [specEntry, hing, truthyO, htr, List.filterMap_cons]
          · simp [specEntry, hing, truthyO, htr, List.filterMap_cons]

/-- The final working record of the slot loop, structurally: every visited
slot's two keys popped in visiting order. -/
theorem slotLoop_fst_foldl (is : List Nat) (d : Rec) (acc : List (Val × Val)) :
    (slotLoop is d acc).1 = is.foldl popSlot d := by
  induction is generalizing d acc with
  | nil => simp [slotLoop]
  | cons i rest ih => simp [slotLoop, ih, popSlot]

/-!
## Characterisation of `enrich_cocktail_data`
-/

theorem get_stampRec (now : String) (d : Rec) (k : String) :
    get (stampRec now d) k =
      if "processing_service" = k then some (.vstr "Azure Functions")
      else if "cloud_provider" = k then some (.vstr "Azure")
      else if "source_api" = k then some (.vstr "TheCocktailDB")
      else if "processing_timestamp" = k then some (.vstr (now ++ "Z"))
      else get d k := by
  simp only [stampRec, get_setKey]

theorem get_stampRec_slot {now : String} {d : Rec} {k : String}
    (hk : k ∈ slotRange.flatMap slotKeys) : get (stampRec now d) k = get d k := by
  rw [get_stampRec,
    if_neg (Ne.symm (enrichKey_ne_slotKey (by simp [enrichKeys]) hk)),
    if_neg (Ne.symm (enrichKey_ne_slotKey (by simp [enrichKeys]) hk)),
    if_neg (Ne.symm (enrichKey_ne_slotKey (by simp [enrichKeys]) hk)),
    if_neg (Ne.symm (enrichKey_ne_slotKey (by simp [enrichKeys]) hk))]

theorem specEntry_stampRec {now : String} {d : Rec} {i : Nat}
    (hi : i ∈ slotRange) : specEntry (stampRec now d) i = specEntry d i :=
  specEntry_congr (get_stampRec_slot (ingredientKey_mem_flatMap hi))
    (get_stampRec_slot (measureKey_mem_flatMap hi))

/-- The ingredients list the source loop builds is exactly the spec-side
`specIngredients` of the input record. -/
theorem slotLoop_ingredients (now : String) (d : Rec) :
    (slotLoop slotRange (stampRec now d) []).2 = specIngredients d := by
  rw [slotLoop_snd _ _ _ slotKeys_nodup, List.nil_append, specIngredients]
  exact List.filterMap_congr (fun i hi => specEntry_stampRec hi)

theorem get_midRec (now : String) (d : Rec) (k : String) :
    get (midRec now d) k =
      if "ingredients" = k then some (.vpairs (specIngredients d))
      else if k ∈ slotRange.flatMap slotKeys then none
      else if "processing_service" = k then some (.vstr "Azure Functions")
      else if "cloud_provider" = k then some (.vstr "Azure")
      else if "source_api" = k then some (.vstr "TheCocktailDB")
      else if "processing_timestamp" = k then some (.vstr (now ++ "Z"))
      else get d k := by
  simp only [midRec, slotLoop_ingredients, get_setKey, slotLoop_fst_get,
    get_stampRec]

/-- `enrich_cocktail_data` in terms of the staged records: `None` exactly
when `idDrink` is absent, otherwise `midRec` with `id` set to its value. -/
theorem enrich_eq (now : String) (d : Rec) :
    enrich_cocktail_data now d =
      (get d "idDrink").map (fun v => setKey (midRec now d) "id" v) := by
  have hid : get (midRec now d) "idDrink" = get d "idDrink" := by
    rw [get_midRec]
    have h1 : "idDrink" ∉ slotRange.flatMap slotKeys :=
      enrichKeys_not_slot "idDrink" (by simp [enrichKeys])
    simp [h1]
  simp only [enrich_cocktail_data]
  rw [show setKey (setKey (setKey (setKey d "processing_timestamp"
        (Val.vstr (now ++ "Z"))) "source_api" (Val.vstr "TheCocktailDB"))
        "cloud_provider" (Val.vstr "Azure")) "processing_service"
        (Val.vstr "Azure Functions") = stampRec now d from rfl]
  rw [show setKey (slotLoop slotRange (stampRec now d) []).1 "ingredients"
        (Val.vpairs (slotLoop slotRange (stampRec now d) []).2) =
        midRec now d from rfl]
  rw [hid]
  cases get d "idDrink" <;> rfl

/-- Full lookup characterisation of an enriched record. -/
theorem enrich_get {now : String} {d e : Rec}
    (h : enrich_cocktail_data now d = some e) (k : String) :
    get e k =
      if "id" = k then get d "idDrink"
      else if "ingredients" = k then some (.vpairs (specIngredients d))
      else if k ∈ slotRange.flatMap slotKeys then none
      else if "processing_service" = k then some (.vstr "Azure Functions")
      else if "cloud_provider" = k then some (.vstr "Azure")
      else if "source_api" = k then some (.vstr "TheCocktailDB")
      else if "processing_timestamp" = k then some (.vstr (now ++ "Z"))
      else get d k := by
  rw [enrich_eq] at h
  cases hid : get d "idDrink" with
  | none =>
      rw [hid, Option.map_none'] at h
      cases h
  | some v =>
      rw [hid, Option.map_some'] at h
      obtain rfl := Option.some.inj h
      rw [get_setKey, get_midRec]

theorem validate_idDrink {d : Rec} (h : validate_cocktail_data d = true) :
    ∃ v, get d "idDrink" = some v ∧ truthy v = true := by
  simp only [validate_cocktail_data, required_fields, List.all_cons,
    Bool.and_eq_true] at h
  cases hid : get d "idDrink" with
  | none =>
      rw [hid] at h
      simp [truthyO] at h
  | some v =>
      refine ⟨v, rfl, ?_⟩
      rw [hid] at h
      simpa [truthyO] using h.1

/-- A record that passes validation always enriches: the `data['idDrink']`
subscript cannot raise. -/
theorem enrich_total (now : String) {d : Rec}
    (h : validate_cocktail_data d = true) :
    ∃ e, enrich_cocktail_data now d = some e := by
  obtain ⟨v, hv, -⟩ := validate_idDrink h
  exact ⟨_, by rw [enrich_eq, hv, Option.map_some']⟩

/-!
## Validation and batch helpers
-/

theorem required_fields_not_slot :
    ∀ f ∈ required_fields, f ∉ slotRange.flatMap slotKeys := by decide

/-- `validate_cocktail_data` reads only the required fields. -/
theorem validate_congr {d1 d2 : Rec}
    (h : ∀ f ∈ required_fields, get d1 f = get d2 f) :
    validate_cocktail_data d1 = validate_cocktail_data d2 := by
  simp only [validate_cocktail_data, required_fields, List.all_cons,
    List.all_nil]
  rw [h "idDrink" (by simp [required_fields]),
    h "strDrink" (by simp [required_fields]),
    h "strCategory" (by simp [required_fields]),
    h "strAlcoholic" (by simp [required_fields]),
    h "strInstructions" (by simp [required_fields])]

/-- Writing or removing a slot key does not change the validation verdict. -/
theorem validate_slot_stable {k : String}
    (hk : k ∈ slotRange.flatMap slotKeys) (d : Rec) (v : Val) :
    validate_cocktail_data (setKey d k v) = validate_cocktail_data d ∧
    validate_cocktail_data (popKey d k) = validate_cocktail_data d := by
  have hne : ∀ f ∈ required_fields, ¬k = f := fun f hf hh =>
    required_fields_not_slot f hf (hh ▸ hk)
  constructor
  · exact validate_congr (fun f hf => by rw [get_setKey, if_neg (hne f hf)])
  · exact validate_congr (fun f hf => by
      rw [get_popKey, if_neg (fun hh => hne f hf hh.symm)])

/-- A slot key of the 1..15 range is absent from an enriched record. -/
theorem enrich_get_slot {now : String} {d e : Rec} {k : String}
    (he : enrich_cocktail_data now d = some e)
    (hk : k ∈ slotRange.flatMap slotKeys) : get e k = none := by
  rw [enrich_get he k,
    if_neg (Ne.symm (enrichKey_ne_slotKey (by simp [enrichKeys]) hk)),
    if_neg (Ne.symm (enrichKey_ne_slotKey (by simp [enrichKeys]) hk)),
    if_pos hk]

theorem processedBatch_nil (now : String) : processedBatch now [] = [] := rfl

theorem processedBatch_cons_valid {now : String} {r e : Rec} (rest : List Rec)
    (hv : validate_cocktail_data r = true)
    (he : enrich_cocktail_data now r = some e) :
    processedBatch now (r :: rest) = e :: processedBatch now rest := by
  simp [processedBatch, List.filter_cons, hv, List.filterMap_cons, he]

theorem processedBatch_cons_invalid {now : String} {r : Rec} (rest : List Rec)
    (hv : validate_cocktail_data r = false) :
    processedBatch now (r :: rest) = processedBatch now rest := by
  simp [processedBatch, List.filter_cons, hv]

theorem processedBatch_append (now : String) (rs ss : List Rec) :
    processedBatch now (rs ++ ss) =
      processedBatch now rs ++ processedBatch now ss := by
  simp [processedBatch, List.filter_append, List.filterMap_append]

/-- An entry produced by a slot has a truthy (present, non-empty)
ingredient. -/
theorem specEntry_truthy {d : Rec} {i : Nat} {p : Val × Val}
    (h : specEntry d i = some p) : truthy p.1 = true := by
  cases hg : get d (ingredientKey i) with
  | none => simp [specEntry, hg] at h
  | some v =>
      by_cases htr : truthy v = true
      · simp only [specEntry, hg, htr, if_true] at h
        obtain rfl := Option.some.inj h
        exact htr
      · simp [specEntry, hg, htr] at h

/-- The length of the spec-side slot list is the count of truthy
ingredient slots. -/
theorem length_filterMap_specEntry (d : Rec) : ∀ is : List Nat,
    (is.filterMap (specEntry d)).length =
      (is.filter (fun i => truthyO (get d (ingredientKey i)))).length
  | [] => rfl
  | i :: rest => by
      have ih := length_filterMap_specEntry d rest
      cases hg : get d (ingredientKey i) with
      | none =>
          simp [List.filterMap_cons, List.filter_cons, specEntry, hg, truthyO, ih]
      | some v =>
          by_cases htr : truthy v = true
          · simp [List.filterMap_cons, List.filter_cons, specEntry, hg, truthyO,
              htr, ih]
          · simp [List.filterMap_cons, List.filter_cons, specEntry, hg, truthyO,
              htr, ih]

theorem specIngredients_length (d : Rec) :
    (specIngredients d).length = countIngredientSlots d :=
  length_filterMap_specEntry d slotRange

/-!
## Batch-shim helpers
-/

/-- A line that fails to parse makes the whole decode comprehension raise. -/
theorem decodeLines_of_mem_none {lines : List (Option Rec)}
    (h : none ∈ lines) : decodeLines lines = none := by
  induction lines with
  | nil => cases h
  | cons l rest ih =>
      cases l with
      | none => rfl
      | some r =>
          have hmem : none ∈ rest := by simpa using h
          simp [decodeLines, ih hmem]

/-- Full description of the blob record loop on any non-aborted entry
state: it never aborts (a validated record always enriches), appends the
enriched records to `processed_cocktails`, and logs stores, store failures
and skips in order. -/
theorem blobLoop_spec (store : Rec → Bool) (now : String) (records : List Rec)
    (st : LoopOutcome) (hab : st.aborted = false) :
    blobLoop store now records st =
      ⟨st.processed ++ processedBatch now records,
       st.storedIds ++ storedIdsOf store now records,
       st.storeFailedIds ++ failedIdsOf store now records,
       st.skippedIds ++ skippedIdsOf records,
       false⟩ := by
  induction records generalizing st with
  | nil =>
      obtain ⟨p, s, f, sk, ab⟩ := st
      cases hab
      simp [blobLoop, processedBatch, storedIdsOf, failedIdsOf, skippedIdsOf]
  | cons r rest ih =>
      by_cases hv : validate_cocktail_data r = true
      · obtain ⟨e, he⟩ := enrich_total now hv
        by_cases hs : store e = true
        · rw [show blobLoop store now (r :: rest) st =
              blobLoop store now rest
                { st with processed := st.processed ++ [e],
                          storedIds := st.storedIds ++ [get e "id"] } by
            simp [blobLoop, hv, he, hs]]
          rw [ih _ (by simpa using hab)]
          simp [processedBatch_cons_valid rest hv he, storedIdsOf, failedIdsOf,
            skippedIdsOf, List.filter_cons, hv, hs]
        · have hs' : store e = false := by simpa using hs
          rw [show blobLoop store now (r :: rest) st =
              blobLoop store now rest
                { st with processed := st.processed ++ [e],
                          storeFailedIds := st.storeFailedIds ++ [get e "id"] } by
            simp [blobLoop, hv, he, hs']]
          rw [ih _ (by simpa using hab)]
          simp [processedBatch_cons_valid rest hv he, storedIdsOf, failedIdsOf,
            skippedIdsOf, List.filter_cons, hv, hs']
      · have hv' : validate_cocktail_data r = false := by simpa using hv
        rw [show blobLoop store now (r :: rest) st =
            blobLoop store now rest
              { st with skippedIds := st.skippedIds ++ [logIdOrNA r] } by
          simp [blobLoop, hv']]
        rw [ih _ (by simpa using hab)]
        simp [processedBatch_cons_invalid rest hv', storedIdsOf, failedIdsOf,
          skippedIdsOf, List.filter_cons, hv']

/-- Full description of a blob-trigger invocation whose NDJSON lines all
parse: nothing raises, the processed batch is mirrored, and the loop's
effects are as described by `blobLoop_spec`. -/
theorem blob_trigger_ok {store : Rec → Bool} {now : String}
    {lines : List (Option Rec)} {records : List Rec}
    (hdec : decodeLines lines = some records) :
    blob_trigger store now lines =
      ⟨⟨processedBatch now records, storedIdsOf store now records,
        failedIdsOf store now records, skippedIdsOf records, false⟩,
       false, some (processedBatch now records)⟩ := by
  have hloop := blobLoop_spec store now records LoopOutcome.start rfl
  simp only [LoopOutcome.start, List.nil_append] at hloop
  simp [blob_trigger, hdec, hloop, LoopOutcome.start]

/-!
## Pop-commutation machinery (orphan measures leave no trace)
-/

theorem foldl_popSlot_popKey (is : List Nat) (d : Rec) (k : String) :
    is.foldl popSlot (popKey d k) = popKey (is.foldl popSlot d) k := by
  induction is generalizing d with
  | nil => simp
  | cons i rest ih =>
      have hstep : popSlot (popKey d k) i = popKey (popSlot d i) k := by
        simp only [popSlot]
        rw [popKey_popKey_comm d k (ingredientKey i),
          popKey_popKey_comm (popKey d (ingredientKey i)) k (measureKey i)]
      simp only [List.foldl_cons, hstep, ih]

theorem get_foldl_popSlot (is : List Nat) (d : Rec) (k : String) :
    get (is.foldl popSlot d) k =
      if k ∈ is.flatMap slotKeys then none else get d k := by
  rw [← slotLoop_fst_foldl is d []]
  exact slotLoop_fst_get is d [] k

theorem foldl_popSlot_absorb {is : List Nat} {k : String}
    (hk : k ∈ is.flatMap slotKeys) (d : Rec) :
    is.foldl popSlot (popKey d k) = is.foldl popSlot d := by
  rw [foldl_popSlot_popKey]
  exact popKey_of_get_none (by rw [get_foldl_popSlot]; simp [hk])

theorem stampRec_popKey {now : String} {d : Rec} {k : String}
    (hk : k ∈ slotRange.flatMap slotKeys) :
    stampRec now (popKey d k) = popKey (stampRec now d) k := by
  have h1 : k ≠ "processing_timestamp" :=
    enrichKey_ne_slotKey (by simp [enrichKeys]) hk
  have h2 : k ≠ "source_api" := enrichKey_ne_slotKey (by simp [enrichKeys]) hk
  have h3 : k ≠ "cloud_provider" := enrichKey_ne_slotKey (by simp [enrichKeys]) hk
  have h4 : k ≠ "processing_service" :=
    enrichKey_ne_slotKey (by simp [enrichKeys]) hk
  simp only [stampRec]
  rw [setKey_popKey_comm h1, setKey_popKey_comm h2, setKey_popKey_comm h3,
    setKey_popKey_comm h4]

theorem slot_cross_ne : ∀ i ∈ slotRange, ∀ j ∈ slotRange,
    ingredientKey j ≠ measureKey i ∧ (j ≠ i → measureKey j ≠ measureKey i) := by
  decide

/-- A slot with a falsy (absent or empty) ingredient yields no entry. -/
theorem specEntry_none_of_falsy {d : Rec} {i : Nat}
    (h : truthyO (get d (ingredientKey i)) = false) : specEntry d i = none := by
  cases hg : get d (ingredientKey i) with
  | none => simp [specEntry, hg]
  | some v =>
      rw [hg] at h
      simp [specEntry, hg, truthyO] at h ⊢
      simp [h]

/-- Removing an orphan measure key (slot `i`'s ingredient is falsy) does
not change the record `enrich_cocktail_data` is about to build. -/
theorem midRec_popMeasure {now : String} {d : Rec} {i : Nat}
    (hi : i ∈ slotRange)
    (hing : truthyO (get d (ingredientKey i)) = false) :
    midRec now (popKey d (measureKey i)) = midRec now d := by
  have hm : measureKey i ∈ slotRange.flatMap slotKeys := measureKey_mem_flatMap hi
  have hstamp : stampRec now (popKey d (measureKey i)) =
      popKey (stampRec now d) (measureKey i) := stampRec_popKey hm
  have hfst : (slotLoop slotRange (popKey (stampRec now d) (measureKey i)) []).1 =
      (slotLoop slotRange (stampRec now d) []).1 := by
    rw [slotLoop_fst_foldl, slotLoop_fst_foldl, foldl_popSlot_absorb hm]
  have hingS : ∀ j, j = i →
      truthyO (get (stampRec now d) (ingredientKey j)) = false := by
    intro j hj
    subst hj
    rw [get_stampRec_slot (ingredientKey_mem_flatMap hi)]
    exact hing
  have hsnd : (slotLoop slotRange (popKey (stampRec now d) (measureKey i)) []).2 =
      (slotLoop slotRange (stampRec now d) []).2 := by
    rw [slotLoop_snd _ _ _ slotKeys_nodup, slotLoop_snd _ _ _ slotKeys_nodup,
      List.nil_append, List.nil_append]
    apply List.filterMap_congr
    intro j hj
    have hcross := slot_cross_ne i hi j hj
    by_cases hji : j = i
    · subst hji
      rw [specEntry_none_of_falsy (hingS j rfl),
        specEntry_none_of_falsy]
      rw [get_popKey, if_neg hcross.1]
      exact hingS j rfl
    · exact specEntry_congr
        (by rw [get_popKey, if_neg hcross.1])
        (by rw [get_popKey, if_neg (hcross.2 hji)])
  simp only [midRec, hstamp, hfst, hsnd]

/-- Removing an orphan measure key does not change the enrichment result
at all. -/
theorem enrich_popMeasure {now : String} {d : Rec} {i : Nat}
    (hi : i ∈ slotRange)
    (hing : truthyO (get d (ingredientKey i)) = false) :
    enrich_cocktail_data now (popKey d (measureKey i)) =
      enrich_cocktail_data now d := by
  rw [enrich_eq, enrich_eq, midRec_popMeasure hi hing, get_popKey,
    if_neg (Ne.symm (enrichKey_ne_slotKey (by simp [enrichKeys])
      (measureKey_mem_flatMap hi)))]

/-!
## The claims
-/

/-- C1: for every valid RawRecord, the `ingredients` sequence produced by
enrich holds exactly one `(ingredient, measure)` entry per slot 1..15
whose ingredient is present and non-empty, in ascending slot order with
gaps skipped (`specIngredients`); each measure defaults to `""` when its
slot's measure is absent or empty; the length equals the count of
non-empty ingredient slots; and no entry has an empty ingredient. -/
theorem claim_C1 (now : String) (d : Rec)
    (h : validate_cocktail_data d = true) :
    ∃ e, enrich_cocktail_data now d = some e ∧
      get e "ingredients" = some (.vpairs (specIngredients d)) ∧
      (specIngredients d).length = countIngredientSlots d ∧
      ∀ p ∈ specIngredients d, truthy p.1 = true := by
  obtain ⟨e, he⟩ := enrich_total now h
  refine ⟨e, he, ?_, specIngredients_length d, ?_⟩
  · rw [enrich_get he "ingredients", if_neg (by decide), if_pos rfl]
  · intro p hp
    obtain ⟨i, -, hsp⟩ := List.mem_filterMap.mp hp
    exact specEntry_truthy hsp

/-- Witness for C1: the spec's Margarita scenario, with the ingredients
sequence evaluated concretely. -/
theorem claim_C1_witness :
    (∃ e, enrich_cocktail_data "2024-01-01T00:00:00" margarita = some e ∧
      get e "ingredients" = some (.vpairs (specIngredients margarita)) ∧
      (specIngredients margarita).length = countIngredientSlots margarita ∧
      ∀ p ∈ specIngredients margarita, truthy p.1 = true) ∧
    specIngredients margarita =
      [(.vstr "Tequila", .vstr "1 1/2 oz"), (.vstr "Triple sec", .vstr "1/2 oz")] ∧
    countIngredientSlots margarita = 2 :=
  ⟨claim_C1 "2024-01-01T00:00:00" margarita (by decide), by decide, by decide⟩

/-- C2: validation succeeds exactly when the five required fields are
present and truthy (non-empty), and the verdict is unaffected by writing
or removing any ingredient/measure slot key; the check is total (the
embedding's `get` is, like `dict.get`, non-raising, and a present-but-empty
string is falsy). -/
theorem claim_C2 (d : Rec) :
    (validate_cocktail_data d = true ↔
      (truthyO (get d "idDrink") = true ∧ truthyO (get d "strDrink") = true ∧
       truthyO (get d "strCategory") = true ∧
       truthyO (get d "strAlcoholic") = true ∧
       truthyO (get d "strInstructions") = true)) ∧
    (∀ k ∈ slotRange.flatMap slotKeys, ∀ v : Val,
      validate_cocktail_data (setKey d k v) = validate_cocktail_data d ∧
      validate_cocktail_data (popKey d k) = validate_cocktail_data d) := by
  constructor
  · simp [validate_cocktail_data, required_fields]
  · intro k hk v
    exact validate_slot_stable hk d v

/-- Witness for C2: a record missing `strInstructions` fails validation,
adding or removing slot keys does not change that, and the Margarita
record (with an empty `strIngredient3`) passes. -/
theorem claim_C2_witness :
    (validate_cocktail_data (setKey recBad "strIngredient1" (.vstr "Gin")) =
        validate_cocktail_data recBad ∧
      validate_cocktail_data (popKey recBad "strIngredient1") =
        validate_cocktail_data recBad) ∧
    validate_cocktail_data recBad = false ∧
    validate_cocktail_data margarita = true :=
  ⟨(claim_C2 recBad).2 "strIngredient1" (by decide) (.vstr "Gin"),
   by decide, by decide⟩

/-- C3: an enriched record has no `strIngredient_i` or `strMeasure_i` key
for any slot 1..15, whether or not the slot was filled. -/
theorem claim_C3 (now : String) (d : Rec)
    (h : validate_cocktail_data d = true) :
    ∃ e, enrich_cocktail_data now d = some e ∧
      ∀ i ∈ slotRange, get e (ingredientKey i) = none ∧
        get e (measureKey i) = none := by
  obtain ⟨e, he⟩ := enrich_total now h
  exact ⟨e, he, fun i hi =>
    ⟨enrich_get_slot he (ingredientKey_mem_flatMap hi),
     enrich_get_slot he (measureKey_mem_flatMap hi)⟩⟩

/-- Witness for C3: the record with an orphan `strMeasure4` (no matching
ingredient) is valid, and both slot keys of every slot are gone after
enrichment. -/
theorem claim_C3_witness :
    (∃ e, enrich_cocktail_data "T" orphanRec = some e ∧
      ∀ i ∈ slotRange, get e (ingredientKey i) = none ∧
        get e (measureKey i) = none) ∧
    get orphanRec "strMeasure4" = some (.vstr "1 tsp") ∧
    validate_cocktail_data orphanRec = true :=
  ⟨claim_C3 "T" orphanRec (by decide), by decide, by decide⟩

/-- Counterexample to C4 as stated: a valid record may itself carry a key
named like an enrichment field; enrich overwrites it, so not *every*
original non-slot key keeps its original value. `legacyRec` is valid,
carries `source_api ↦ "legacy"` (not a slot key), yet the enriched record
maps `source_api` to the constant `"TheCocktailDB"`. -/
theorem claim_C4_counterexample :
    validate_cocktail_data legacyRec = true ∧
    "source_api" ∉ slotRange.flatMap slotKeys ∧
    get legacyRec "source_api" = some (.vstr "legacy") ∧
    (enrich_cocktail_data "T" legacyRec).map (fun e => get e "source_api") =
      some (some (.vstr "TheCocktailDB")) ∧
    some (Val.vstr "TheCocktailDB") ≠ some (Val.vstr "legacy") := by decide

/-- C4 amended: every original key other than the 30 slot keys *and the
six enrichment field names* keeps its original value, and enrich sets
exactly those six fields: the timestamp `now + "Z"`, the three provenance
constants, `id` equal to the record's `idDrink`, and `ingredients`. -/
theorem claim_C4 (now : String) (d : Rec)
    (h : validate_cocktail_data d = true) :
    ∃ e, enrich_cocktail_data now d = some e ∧
      (∀ k, k ∉ slotRange.flatMap slotKeys → k ∉ addedKeys →
        get e k = get d k) ∧
      get e "processing_timestamp" = some (.vstr (now ++ "Z")) ∧
      get e "source_api" = some (.vstr "TheCocktailDB") ∧
      get e "cloud_provider" = some (.vstr "Azure") ∧
      get e "processing_service" = some (.vstr "Azure Functions") ∧
      get e "id" = get d "idDrink" ∧
      get e "ingredients" = some (.vpairs (specIngredients d)) ∧
      ∀ i ∈ slotRange, get e (ingredientKey i) = none ∧
        get e (measureKey i) = none := by
  obtain ⟨e, he⟩ := enrich_total now h
  refine ⟨e, he, ?_, ?_, ?_, ?_, ?_, ?_, ?_, ?_⟩
  · intro k hk1 hk2
    simp only [addedKeys, List.mem_cons, List.not_mem_nil, or_false,
      not_or] at hk2
    obtain ⟨n1, n2, n3, n4, n5, n6⟩ := hk2
    rw [enrich_get he k, if_neg (fun hh => n6 hh.symm),
      if_neg (fun hh => n5 hh.symm), if_neg hk1,
      if_neg (fun hh => n4 hh.symm), if_neg (fun hh => n3 hh.symm),
      if_neg (fun hh => n2 hh.symm), if_neg (fun hh => n1 hh.symm)]
  · rw [enrich_get he "processing_timestamp", if_neg (by decide),
      if_neg (by decide), if_neg (by decide), if_neg (by decide),
      if_neg (by decide), if_neg (by decide), if_pos rfl]
  · rw [enrich_get he "source_api", if_neg (by decide), if_neg (by decide),
      if_neg (by decide), if_neg (by decide), if_neg (by decide), if_pos rfl]
  · rw [enrich_get he "cloud_provider", if_neg (by decide),
      if_neg (by decide), if_neg (by decide), if_neg (by decide), if_pos rfl]
  · rw [enrich_get he "processing_service", if_neg (by decide),
      if_neg (by decide), if_neg (by decide), if_pos rfl]
  · rw [enrich_get he "id", if_pos rfl]
  · rw [enrich_get he "ingredients", if_neg (by decide), if_pos rfl]
  · exact fun i hi =>
      ⟨enrich_get_slot he (ingredientKey_mem_flatMap hi),
       enrich_get_slot he (measureKey_mem_flatMap hi)⟩

/-- Witness for C4 (amended) at the Margarita record, with one untouched
original field evaluated concretely. -/
theorem claim_C4_witness :
    (∃ e, enrich_cocktail_data "T" margarita = some e ∧
      (∀ k, k ∉ slotRange.flatMap slotKeys → k ∉ addedKeys →
        get e k = get margarita k) ∧
      get e "processing_timestamp" = some (.vstr ("T" ++ "Z")) ∧
      get e "source_api" = some (.vstr "TheCocktailDB") ∧
      get e "cloud_provider" = some (.vstr "Azure") ∧
      get e "processing_service" = some (.vstr "Azure Functions") ∧
      get e "id" = get margarita "idDrink" ∧
      get e "ingredients" = some (.vpairs (specIngredients margarita)) ∧
      ∀ i ∈ slotRange, get e (ingredientKey i) = none ∧
        get e (measureKey i) = none) ∧
    (enrich_cocktail_data "T" margarita).map (fun e => get e "strDrink") =
      some (some (.vstr "Margarita")) :=
  ⟨claim_C4 "T" margarita (by decide), by decide⟩

/-- Counterexample to C5 as stated: `enrich_cocktail_data` edits its
argument dict in place (`data.pop`, item assignment) and returns that same
object, so the caller's record after the call — the returned record in
this state-passing embedding — is not the record the caller passed in. -/
theorem claim_C5_counterexample :
    validate_cocktail_data margarita = true ∧
    enrich_cocktail_data "T" margarita ≠ some margarita := by decide

/-- C5 amended: enrichment is deterministic — the result is a function of
the record value and `now` alone — and records are processed independently
(the batch denotation is a homomorphism over concatenation); but the
function does mutate the caller's record: it updates it in place and
returns it, so the record the caller holds afterwards differs from the
input. -/
theorem claim_C5 :
    (∀ now : String, ∀ d d' : Rec, d = d' →
      enrich_cocktail_data now d = enrich_cocktail_data now d') ∧
    (∀ now : String, ∀ rs ss : List Rec,
      processedBatch now (rs ++ ss) =
        processedBatch now rs ++ processedBatch now ss) ∧
    ¬(∀ now : String, ∀ d e : Rec,
        enrich_cocktail_data now d = some e → e = d) := by
  refine ⟨fun now d d' hh => by rw [hh],
    fun now rs ss => processedBatch_append now rs ss, ?_⟩
  intro hall
  have hne : enrich_cocktail_data "T" margarita ≠ some margarita := by decide
  obtain ⟨e, he⟩ := enrich_total "T"
    (show validate_cocktail_data margarita = true by decide)
  exact hne (by rw [he, hall "T" margarita e he])

/-- Witness for C5 (amended): batch independence at a concrete split. -/
theorem claim_C5_witness :
    processedBatch "T" ([recA] ++ [recBad]) =
      processedBatch "T" [recA] ++ processedBatch "T" [recBad] :=
  claim_C5.2.1 "T" [recA] [recBad]

/-- Counterexample to C6 as stated: the manual/direct path has no
per-record store-error handler. With a store raising on record 2 of a
3-record valid batch, only record 1 is stored, record 3 is never
processed, and the call answers the 500 error response with no counts —
the failure is not isolated and processing does not continue on that
path. -/
theorem claim_C6_counterexample :
    validate_cocktail_data recA = true ∧
    validate_cocktail_data recB = true ∧
    validate_cocktail_data recC = true ∧
    storeFailOn2 enrichedB = false ∧
    storeFailOn2 enrichedC = true ∧
    manual_trigger storeFailOn2 "T" [recA, recB, recC] =
      ⟨[some (.vstr "1")], 500, none, none⟩ := by decide

/-- C6 amended: on the blob path a Cosmos write rejection is isolated per
record — with the store failing on record 3 of a 3-record valid batch,
records 1 and 2 are logged stored, record 3 is logged failed, all three
stay in the output batch, and the handler does not raise. On the manual
path the loop aborts at the first store failure: with a store failing on
record 2, only record 1's upsert persists and the call answers 500 with no
counts (it responds rather than raising). -/
theorem claim_C6 (store store' : Rec → Bool) (now : String)
    (r1 r2 r3 e1 e2 e3 : Rec)
    (hv1 : validate_cocktail_data r1 = true)
    (hv2 : validate_cocktail_data r2 = true)
    (hv3 : validate_cocktail_data r3 = true)
    (he1 : enrich_cocktail_data now r1 = some e1)
    (he2 : enrich_cocktail_data now r2 = some e2)
    (he3 : enrich_cocktail_data now r3 = some e3)
    (hs1 : store e1 = true) (hs2 : store e2 = true) (hs3 : store e3 = false)
    (hs1' : store' e1 = true) (hs2' : store' e2 = false) :
    blob_trigger store now [some r1, some r2, some r3] =
      ⟨⟨[e1, e2, e3], [get e1 "id", get e2 "id"], [get e3 "id"], [], false⟩,
       false, some [e1, e2, e3]⟩ ∧
    manual_trigger store' now [r1, r2, r3] =
      ⟨[get e1 "id"], 500, none, none⟩ := by
  constructor
  · have hdec : decodeLines [some r1, some r2, some r3] =
        some [r1, r2, r3] := by simp [decodeLines]
    rw [blob_trigger_ok hdec]
    have hpb : processedBatch now [r1, r2, r3] = [e1, e2, e3] := by
      rw [processedBatch_cons_valid _ hv1 he1,
        processedBatch_cons_valid _ hv2 he2,
        processedBatch_cons_valid _ hv3 he3, processedBatch_nil]
    simp [hpb, storedIdsOf, failedIdsOf, skippedIdsOf, List.filter_cons,
      hs1, hs2, hs3, hv1, hv2, hv3]
  · simp [manual_trigger, manualLoop, hv1, he1, hs1', hv2, he2, hs2']

/-- Witness for C6 (amended): the 3-record batches with stores failing on
id 3 (blob path) and id 2 (manual path). -/
theorem claim_C6_witness :
    blob_trigger storeFailOn3 "T" [some recA, some recB, some recC] =
      ⟨⟨[enrichedA, enrichedB, enrichedC],
        [get enrichedA "id", get enrichedB "id"], [get enrichedC "id"], [],
        false⟩,
       false, some [enrichedA, enrichedB, enrichedC]⟩ ∧
    manual_trigger storeFailOn2 "T" [recA, recB, recC] =
      ⟨[get enrichedA "id"], 500, none, none⟩ :=
  claim_C6 storeFailOn3 storeFailOn2 "T" recA recB recC
    enrichedA enrichedB enrichedC
    (by decide) (by decide) (by decide) (by decide) (by decide) (by decide)
    (by decide) (by decide) (by decide) (by decide) (by decide)

/-- C7: on the blob path, when every line decodes, the handler does not
raise, every record failing validation is skipped with a diagnostic
quoting its identifier (or `"N/A"`), is excluded from the output batch and
is never enriched: the output batch is exactly the enriched valid records
in order, and it is what gets mirrored. -/
theorem claim_C7 (store : Rec → Bool) (now : String)
    (lines : List (Option Rec)) (records : List Rec)
    (hdec : decodeLines lines = some records) :
    (blob_trigger store now lines).raised = false ∧
    (blob_trigger store now lines).effects.processed =
      processedBatch now records ∧
    (blob_trigger store now lines).effects.skippedIds =
      skippedIdsOf records ∧
    (blob_trigger store now lines).mirrored =
      some (processedBatch now records) := by
  rw [blob_trigger_ok hdec]
  exact ⟨rfl, rfl, rfl, rfl⟩

/-- Witness for C7: a 3-record batch whose second record is invalid yields
exactly the two enriched valid records, and the skip diagnostic quotes the
invalid record's identifier `"2"`. -/
theorem claim_C7_witness :
    ((blob_trigger storeAll "T" [some recA, some recBad, some recC]).raised =
        false ∧
      (blob_trigger storeAll "T"
        [some recA, some recBad, some recC]).effects.processed =
        processedBatch "T" [recA, recBad, recC] ∧
      (blob_trigger storeAll "T"
        [some recA, some recBad, some recC]).effects.skippedIds =
        skippedIdsOf [recA, recBad, recC] ∧
      (blob_trigger storeAll "T"
        [some recA, some recBad, some recC]).mirrored =
        some (processedBatch "T" [recA, recBad, recC])) ∧
    processedBatch "T" [recA, recBad, recC] = [enrichedA, enrichedC] ∧
    skippedIdsOf [recA, recBad, recC] = [.vstr "2"] :=
  ⟨claim_C7 storeAll "T" [some recA, some recBad, some recC]
      [recA, recBad, recC] (by decide),
   by decide, by decide⟩

/-- C8: re-enriching an already-enriched record (which has no
`strIngredient_i` keys) does not error and yields an empty `ingredients`
sequence. -/
theorem claim_C8 (now now2 : String) (d e : Rec)
    (h : validate_cocktail_data d = true)
    (he : enrich_cocktail_data now d = some e) :
    ∃ e2, enrich_cocktail_data now2 e = some e2 ∧
      get e2 "ingredients" = some (.vpairs []) := by
  have hframe : ∀ f ∈ required_fields, get e f = get d f := by
    intro f hf
    simp only [required_fields, List.mem_cons, List.not_mem_nil,
      or_false] at hf
    rcases hf with rfl | rfl | rfl | rfl | rfl <;>
      rw [enrich_get he _, if_neg (by decide), if_neg (by decide),
        if_neg (by decide), if_neg (by decide), if_neg (by decide),
        if_neg (by decide), if_neg (by decide)]
  have hval : validate_cocktail_data e = true :=
    (validate_congr hframe).trans h
  obtain ⟨e2, he2⟩ := enrich_total now2 hval
  refine ⟨e2, he2, ?_⟩
  rw [enrich_get he2 "ingredients", if_neg (by decide), if_pos rfl]
  have hempty : specIngredients e = [] := by
    rw [specIngredients, List.filterMap_eq_nil_iff]
    intro i hi
    exact specEntry_none_of_falsy
      (by rw [enrich_get_slot he (ingredientKey_mem_flatMap hi)]; rfl)
  rw [hempty]

/-- Witness for C8: double-enriching the Margarita record. -/
theorem claim_C8_witness :
    ∃ e2, enrich_cocktail_data "T2" enrichedMargarita = some e2 ∧
      get e2 "ingredients" = some (.vpairs []) :=
  claim_C8 "T" "T2" margarita enrichedMargarita (by decide) (by decide)

/-- C9: when some NDJSON line fails to parse, the decode comprehension
raises before any record is processed: nothing is enriched, stored or
skipped, nothing is mirrored, and the handler re-raises the exception. -/
theorem claim_C9 (store : Rec → Bool) (now : String)
    (lines : List (Option Rec)) (h : none ∈ lines) :
    blob_trigger store now lines = ⟨LoopOutcome.start, true, none⟩ := by
  simp [blob_trigger, decodeLines_of_mem_none h]

/-- Witness for C9: a batch whose second line is malformed. -/
theorem claim_C9_witness :
    blob_trigger storeAll "T" [some recA, none, some recC] =
      ⟨LoopOutcome.start, true, none⟩ :=
  claim_C9 storeAll "T" [some recA, none, some recC] (by decide)

/-- C10: a slot whose measure is present but whose ingredient is absent or
empty contributes no entry, the measure key is removed from the output,
and the orphan measure value is discarded entirely: removing that key from
the input does not change the enrichment result at all, so the value
influences nothing downstream. -/
theorem claim_C10 (now : String) (d : Rec) (i : Nat) (m : Val)
    (h : validate_cocktail_data d = true) (hi : i ∈ slotRange)
    (_hm : get d (measureKey i) = some m)
    (hing : truthyO (get d (ingredientKey i)) = false) :
    ∃ e, enrich_cocktail_data now d = some e ∧
      specEntry d i = none ∧
      get e (measureKey i) = none ∧
      get e "ingredients" = some (.vpairs (specIngredients d)) ∧
      enrich_cocktail_data now (popKey d (measureKey i)) =
        enrich_cocktail_data now d := by
  obtain ⟨e, he⟩ := enrich_total now h
  refine ⟨e, he, specEntry_none_of_falsy hing,
    enrich_get_slot he (measureKey_mem_flatMap hi), ?_,
    enrich_popMeasure hi hing⟩
  rw [enrich_get he "ingredients", if_neg (by decide), if_pos rfl]

/-- Witness for C10: the orphan `strMeasure4 ↦ "1 tsp"` of `orphanRec`. -/
theorem claim_C10_witness :
    ∃ e, enrich_cocktail_data "T" orphanRec = some e ∧
      specEntry orphanRec 4 = none ∧
      get e (measureKey 4) = none ∧
      get e "ingredients" = some (.vpairs (specIngredients orphanRec)) ∧
      enrich_cocktail_data "T" (popKey orphanRec (measureKey 4)) =
        enrich_cocktail_data "T" orphanRec :=
  claim_C10 "T" orphanRec 4 (.vstr "1 tsp") (by decide) (by decide)
    (by decide) (by decide)

end Coffeeverse
